import Mathlib

/-!
A shallow embedding of `src/bumpalloc.rs` (the `LeakyBumpAlloc` downward
bump allocator) and proofs about it.

Machine integers (`usize`) are modelled as `Nat`; the points where the Rust
code is sensitive to the 64-bit width (`checked_sub`, the bitwise mask
`!(align - 1)`) are modelled explicitly: `checkedSub` returns `none` exactly
where Rust's `checked_sub` does, and the mask complement is taken inside
2^64 (`usizeNot`).  Raw pointers are modelled by their numeric addresses.
Panics and `handle_alloc_error` are modelled as explicit result
constructors; a panic leaves the allocator state unchanged, so `allocate`
returns the (unchanged) state next to the panic value.
-/

/-- Width of `usize` on the 64-bit targets the crate is tuned for: 2^64. -/
def USIZE : Nat := 2 ^ 64

/-- `isize::MAX` on a 64-bit target. -/
def ISIZE_MAX : Nat := 2 ^ 63 - 1

/-- Bitwise complement within a 64-bit word: for `x < 2^64` the bits of
`usizeNot x` are exactly the bits of `x` flipped on positions 0..63. -/
def usizeNot (x : Nat) : Nat := (USIZE - 1) - x

/-- `usize::checked_sub`: `none` exactly when the subtraction would
underflow. -/
def checkedSub (a b : Nat) : Option Nat :=
  if b ≤ a then some (a - b) else none

/-- `usize::is_power_of_two`, by the standard single-set-bit test
(`n != 0 && n & (n - 1) == 0`), which agrees with Rust's
`count_ones() == 1` (see `isPowerOfTwo_iff` below). -/
def isPowerOfTwo (n : Nat) : Bool :=
  n != 0 && n &&& (n - 1) == 0

/-- `std::alloc::Layout`: a validated (size, alignment) pair. -/
structure Layout where
  size : Nat
  align : Nat
deriving DecidableEq

/-- `Layout::from_size_align(size, align)`: succeeds iff `align` is a power
of two and `size` does not exceed `isize::MAX - (align - 1)` (equivalently:
`size` rounded up to a multiple of `align` fits in `isize`). -/
def Layout.fromSizeAlign (size align : Nat) : Option Layout :=
  if isPowerOfTwo align = true ∧ size ≤ ISIZE_MAX - (align - 1) then
    some ⟨size, align⟩
  else
    none

/-- The allocator struct of `bumpalloc.rs`: the reserved block is
`[start, end_)`, `ptr` is the downward-moving allocation cursor, `layout`
is the layout the block was reserved with. -/
structure LeakyBumpAlloc where
  layout : Layout
  start : Nat
  end_ : Nat
  ptr : Nat
deriving DecidableEq

/-- Outcome of `LeakyBumpAlloc::new`. -/
inductive NewResult where
  /-- Construction returned a fully initialised allocator. -/
  | ok (alloc : LeakyBumpAlloc)
  /-- The `.unwrap()` on `Layout::from_size_align` panicked. -/
  | layoutPanic
  /-- `System.alloc` returned null and `handle_alloc_error` was invoked. -/
  | allocFailure
deriving DecidableEq

/-- `LeakyBumpAlloc::new(capacity, alignment)`.  `sysStart` is the address
the system allocator returns for the reserved block (`0` models a null
return). -/
def LeakyBumpAlloc.new (capacity alignment sysStart : Nat) : NewResult :=
  match Layout.fromSizeAlign capacity alignment with
  | none => .layoutPanic
  | some layout =>
    if sysStart = 0 then .allocFailure
    else
      .ok { layout := layout, start := sysStart,
            end_ := sysStart + layout.size, ptr := sysStart + layout.size }

/-- Outcome of `LeakyBumpAlloc::allocate`. -/
inductive AllocResult where
  /-- The allocation succeeded and returned base address `addr`. -/
  | ok (addr : Nat)
  /-- The `.expect("ptr sub overflowed")` on `checked_sub` panicked. -/
  | subOverflowPanic
  /-- The exhaustion panic: `asked` is `self.end - new_ptr` (the total
  bytes the cursor was asked to bump to) and `cap` is `self.capacity()`. -/
  | bumpPanic (asked cap : Nat)
deriving DecidableEq

/-- Whether an `AllocResult` is a success. -/
def AllocResult.isOk : AllocResult → Bool
  | .ok _ => true
  | _ => false

/-- Whether an `AllocResult` is the exhaustion panic (the abort carrying
the requested-vs-available diagnostic). -/
def AllocResult.isBumpPanic : AllocResult → Bool
  | .bumpPanic _ _ => true
  | _ => false

/-- `LeakyBumpAlloc::allocated`: `self.end as usize - self.ptr as usize`. -/
def LeakyBumpAlloc.allocated (a : LeakyBumpAlloc) : Nat :=
  a.end_ - a.ptr

/-- `LeakyBumpAlloc::capacity`: `self.layout.size()`. -/
def LeakyBumpAlloc.capacity (a : LeakyBumpAlloc) : Nat :=
  a.layout.size

/-- `LeakyBumpAlloc::allocate(num_bytes)`, translated line by line:
compute `ptr.checked_sub(num_bytes)` (panicking on underflow), round the
result down with `& !(align - 1)`, panic if the rounded cursor falls below
`start`, otherwise commit `self.ptr = self.ptr.sub(ptr - new_ptr)` and
return `self.ptr`.  The returned state is the allocator after the call
(unchanged on either panic). -/
def LeakyBumpAlloc.allocate (a : LeakyBumpAlloc) (numBytes : Nat) :
    AllocResult × LeakyBumpAlloc :=
  let ptr := a.ptr
  match checkedSub ptr numBytes with
  | none => (.subOverflowPanic, a)
  | some newPtr0 =>
    let newPtr := newPtr0 &&& usizeNot (a.layout.align - 1)
    let start := a.start
    if newPtr < start then
      (.bumpPanic (a.end_ - newPtr) a.capacity, a)
    else
      let a' := { a with ptr := a.ptr - (ptr - newPtr) }
      (.ok a'.ptr, a')

/-- A sequence of `allocate` calls, recording for each successful call the
returned range `(new_ptr, old_ptr)`; `none` as soon as one call panics. -/
def LeakyBumpAlloc.allocSeq (a : LeakyBumpAlloc) :
    List Nat → Option (List (Nat × Nat) × LeakyBumpAlloc)
  | [] => some ([], a)
  | n :: ns =>
    match a.allocate n with
    | (.ok addr, a1) =>
      match a1.allocSeq ns with
      | some (rs, b) => some ((addr, a.ptr) :: rs, b)
      | none => none
    | _ => none

/-- Well-formedness of a live allocator: what `new` establishes given the
system allocator's guarantees (a non-null block of `layout.size` bytes at
an address aligned to `layout.align`, lying inside the address space),
together with the cursor staying inside the block. -/
def WF (a : LeakyBumpAlloc) : Prop :=
  (∃ k, k < 64 ∧ a.layout.align = 2 ^ k) ∧
  a.start % a.layout.align = 0 ∧
  a.start ≠ 0 ∧
  a.end_ = a.start + a.layout.size ∧
  a.start ≤ a.ptr ∧
  a.ptr ≤ a.end_ ∧
  a.end_ < USIZE

/-- The chain shape of the ranges returned by a successful sequence of
allocations: starting from cursor `top`, each recorded range `(new, old)`
ends exactly at the cursor left by the previous call (`old = top`),
contains at least the requested number of bytes (`new + n ≤ old`), and
the final cursor is `bot`. -/
def ChainFrom : Nat → List Nat → List (Nat × Nat) → Nat → Prop
  | top, [], [], bot => bot = top
  | top, n :: ns, r :: rs, bot =>
    r.2 = top ∧ r.1 + n ≤ r.2 ∧ ChainFrom r.1 ns rs bot
  | _, _, _, _ => False

/-! ### Arithmetic facts about the 64-bit mask -/

/-- Numeric value of the mask `!(2^k - 1)` inside 64 bits. -/
theorem usizeNot_pow_sub_one (k : Nat) (hk : k ≤ 63) :
    usizeNot (2 ^ k - 1) = (2 ^ (64 - k) - 1) * 2 ^ k := by
  have h1 : (2 : Nat) ^ k ≤ 2 ^ 63 := Nat.pow_le_pow_right (by omega) hk
  have h2 : (1 : Nat) ≤ 2 ^ k := Nat.one_le_two_pow
  have hp : (2 : Nat) ^ (64 - k) * 2 ^ k = 2 ^ 64 := by
    rw [← pow_add]
    congr 1
    omega
  have h4 : ((2 : Nat) ^ (64 - k) - 1) * 2 ^ k = 2 ^ 64 - 2 ^ k := by
    rw [Nat.sub_mul, one_mul, hp]
  have h63 : (2 : Nat) ^ 63 = 9223372036854775808 := by norm_num
  have h64 : (2 : Nat) ^ 64 = 18446744073709551616 := by norm_num
  simp only [usizeNot, USIZE]
  omega

/-- `x & !(2^k - 1)` clears the low `k` bits: it is the largest multiple of
`2^k` not exceeding `x`, provided `x` fits in 64 bits. -/
theorem land_usizeNot (x k : Nat) (hx : x < USIZE) (hk : k ≤ 63) :
    x &&& usizeNot (2 ^ k - 1) = 2 ^ k * (x / 2 ^ k) := by
  rw [usizeNot_pow_sub_one k hk]
  apply Nat.eq_of_testBit_eq
  intro j
  rw [Nat.testBit_land, Nat.mul_comm ((2 : Nat) ^ (64 - k) - 1) (2 ^ k),
    Nat.testBit_mul_pow_two, Nat.testBit_mul_pow_two, Nat.testBit_two_pow_sub_one]
  rcases Nat.lt_or_ge j k with hj | hj
  · simp [Nat.not_le.mpr hj]
  · have hjk : k ≤ j := hj
    simp only [ge_iff_le, hjk, decide_True, Bool.true_and]
    rw [← Nat.shiftRight_eq_div_pow, Nat.testBit_shiftRight]
    have hkj : k + (j - k) = j := by omega
    rw [hkj]
    rcases Nat.lt_or_ge j 64 with hj64 | hj64
    · have : j - k < 64 - k := by omega
      simp [this]
    · have hxj : x < 2 ^ j :=
        Nat.lt_of_lt_of_le (by simpa [USIZE] using hx)
          (Nat.pow_le_pow_right (by omega) hj64)
      have : ¬ (j - k < 64 - k) := by omega
      simp [this, Nat.testBit_lt_two_pow hxj]

/-- Rounding form of `land_usizeNot`: `x & !(2^k - 1) = x - x % 2^k`. -/
theorem land_usizeNot_eq_sub_mod (x k : Nat) (hx : x < USIZE) (hk : k ≤ 63) :
    x &&& usizeNot (2 ^ k - 1) = x - x % 2 ^ k := by
  rw [land_usizeNot x k hx hk]
  have := Nat.div_add_mod x (2 ^ k)
  omega

/-! ### `isPowerOfTwo` agrees with the mathematical notion -/

/-- `2^k & (2^k - 1) = 0`. -/
theorem land_two_pow_sub_one_self (k : Nat) :
    2 ^ k &&& (2 ^ k - 1) = 0 := by
  apply Nat.eq_of_testBit_eq
  intro i
  rw [Nat.testBit_land, Nat.testBit_two_pow, Nat.testBit_two_pow_sub_one,
    Nat.zero_testBit]
  rcases eq_or_ne k i with h | h
  · subst h
    simp
  · simp [h]

/-- The single-set-bit test recognises exactly the powers of two. -/
theorem isPowerOfTwo_iff (n : Nat) :
    isPowerOfTwo n = true ↔ ∃ k, n = 2 ^ k := by
  constructor
  · intro h
    induction n using Nat.strong_induction_on with
    | _ n ih =>
      simp only [isPowerOfTwo, Bool.and_eq_true, bne_iff_ne, ne_eq, beq_iff_eq] at h
      obtain ⟨hn0, hland⟩ := h
      rcases Nat.lt_or_ge n 2 with hn2 | hn2
      · refine ⟨0, ?_⟩
        omega
      · rcases Nat.even_or_odd n with ⟨m, hm⟩ | ⟨m, hm⟩
        · -- n = 2m even, n - 1 = 2(m-1)+1
          have hm1 : 1 ≤ m := by omega
          have hbit : n = Nat.bit false m := by
            simp only [Nat.bit, cond_false]
            omega
          have hbit1 : n - 1 = Nat.bit true (m - 1) := by
            simp only [Nat.bit, cond_true]
            omega
          rw [hbit1, hbit, Nat.land_bit, Bool.false_and,
            Nat.bit_eq_zero_iff] at hland
          have := ih m (by omega) (by
            simp only [isPowerOfTwo, Bool.and_eq_true, bne_iff_ne, ne_eq,
              beq_iff_eq]
            exact ⟨by omega, hland.1⟩)
          obtain ⟨j, hj⟩ := this
          exact ⟨j + 1, by rw [pow_succ]; omega⟩
        · -- n = 2m + 1 odd with n ≥ 3: n & (n-1) = 2m ≠ 0
          have hm1 : 1 ≤ m := by omega
          have hbit : n = Nat.bit true m := by
            simp only [Nat.bit, cond_true]
            omega
          have hbit1 : n - 1 = Nat.bit false m := by
            simp only [Nat.bit, cond_false]
            omega
          rw [hbit1, hbit, Nat.land_bit, Bool.true_and, Nat.and_self,
            Nat.bit_eq_zero_iff] at hland
          omega
  · rintro ⟨k, rfl⟩
    simp only [isPowerOfTwo, Bool.and_eq_true, bne_iff_ne, ne_eq, beq_iff_eq]
    exact ⟨by positivity, land_two_pow_sub_one_self k⟩

/-! ### Characterising `allocate` -/

/-- When `num_bytes` exceeds the cursor's address, `checked_sub` fails and
`allocate` panics via `.expect("ptr sub overflowed")`, leaving the state
unchanged. -/
theorem allocate_sub_overflow (a : LeakyBumpAlloc) (n : Nat) (h : a.ptr < n) :
    a.allocate n = (.subOverflowPanic, a) := by
  simp [LeakyBumpAlloc.allocate, checkedSub, Nat.not_le.mpr h]

/-- Unfolding of `allocate` when the checked subtraction succeeds. -/
theorem allocate_eq_of_le (a : LeakyBumpAlloc) (n : Nat) (h : n ≤ a.ptr) :
    a.allocate n =
      (if (a.ptr - n) &&& usizeNot (a.layout.align - 1) < a.start then
        (.bumpPanic (a.end_ - ((a.ptr - n) &&& usizeNot (a.layout.align - 1)))
          a.capacity, a)
      else
        (.ok (a.ptr - (a.ptr - ((a.ptr - n) &&& usizeNot (a.layout.align - 1)))),
         { a with
            ptr := a.ptr - (a.ptr - ((a.ptr - n) &&& usizeNot (a.layout.align - 1))) })) := by
  simp [LeakyBumpAlloc.allocate, checkedSub, h]

/-- `allocate` on a well-formed allocator, when `num_bytes ≤ ptr`: the mask
step rounds the candidate `ptr - n` down to a multiple of the alignment,
and the call either exhaustion-panics (rounded candidate below `start`,
state unchanged) or commits and returns the rounded candidate. -/
theorem allocate_spec (a : LeakyBumpAlloc) (n : Nat) (hwf : WF a)
    (hn : n ≤ a.ptr) :
    ((a.ptr - n) - (a.ptr - n) % a.layout.align < a.start →
      a.allocate n =
        (.bumpPanic (a.end_ - ((a.ptr - n) - (a.ptr - n) % a.layout.align))
          a.capacity, a)) ∧
    (a.start ≤ (a.ptr - n) - (a.ptr - n) % a.layout.align →
      a.allocate n =
        (.ok ((a.ptr - n) - (a.ptr - n) % a.layout.align),
         { a with ptr := (a.ptr - n) - (a.ptr - n) % a.layout.align })) := by
  obtain ⟨⟨k, hk64, halign⟩, hsa, hs0, hend, hsp, hpe, hlt⟩ := hwf
  have hx : a.ptr - n < USIZE := by omega
  have hmask : (a.ptr - n) &&& usizeNot (a.layout.align - 1)
      = (a.ptr - n) - (a.ptr - n) % a.layout.align := by
    rw [halign]
    exact land_usizeNot_eq_sub_mod _ k hx (by omega)
  rw [allocate_eq_of_le a n hn, hmask]
  have hrle : (a.ptr - n) - (a.ptr - n) % a.layout.align ≤ a.ptr - n :=
    Nat.sub_le _ _
  constructor
  · intro hlt2
    rw [if_pos hlt2]
  · intro hge
    rw [if_neg (by omega)]
    have heq : a.ptr - (a.ptr - ((a.ptr - n) - (a.ptr - n) % a.layout.align))
        = (a.ptr - n) - (a.ptr - n) % a.layout.align := by omega
    rw [heq]

/-- A successful `allocate` implies the checked subtraction succeeded. -/
theorem allocate_ok_le (a : LeakyBumpAlloc) (n addr : Nat)
    (a1 : LeakyBumpAlloc) (h : a.allocate n = (.ok addr, a1)) : n ≤ a.ptr := by
  by_contra hc
  rw [allocate_sub_overflow a n (by omega)] at h
  simp at h

/-- Everything a single successful `allocate` call guarantees on a
well-formed allocator: the new state is well-formed, only `ptr` changed,
the returned address is the candidate `ptr - n` rounded down to the
nearest multiple of the alignment, it equals the new cursor, it sits at or
above `start`, and the range `[addr, old ptr)` holds at least `n` bytes. -/
theorem allocate_ok_step (a : LeakyBumpAlloc) (n addr : Nat)
    (a1 : LeakyBumpAlloc) (hwf : WF a) (h : a.allocate n = (.ok addr, a1)) :
    WF a1 ∧ a1.layout = a.layout ∧ a1.start = a.start ∧ a1.end_ = a.end_ ∧
    a1.ptr = addr ∧ n ≤ a.ptr ∧
    addr = (a.ptr - n) - (a.ptr - n) % a.layout.align ∧
    a.start ≤ addr ∧ addr + n ≤ a.ptr ∧ addr % a.layout.align = 0 ∧
    a.ptr - n < addr + a.layout.align := by
  have hn := allocate_ok_le a n addr a1 h
  have hspec := allocate_spec a n hwf hn
  obtain ⟨⟨k, hk64, halign⟩, hsa, hs0, hend, hsp, hpe, hlt⟩ := hwf
  have halpos : 0 < a.layout.align := by
    rw [halign]
    exact Nat.two_pow_pos k
  have hdm := Nat.div_add_mod (a.ptr - n) a.layout.align
  have hmodlt := Nat.mod_lt (a.ptr - n) halpos
  rcases Nat.lt_or_ge ((a.ptr - n) - (a.ptr - n) % a.layout.align) a.start
    with hblt | hge
  · rw [hspec.1 hblt] at h
    simp at h
  · rw [hspec.2 hge] at h
    simp only [Prod.mk.injEq, AllocResult.ok.injEq] at h
    obtain ⟨haddr, ha1⟩ := h
    subst haddr
    subst ha1
    have hmod0 : ((a.ptr - n) - (a.ptr - n) % a.layout.align)
        % a.layout.align = 0 := by
      have hrw : (a.ptr - n) - (a.ptr - n) % a.layout.align
          = a.layout.align * ((a.ptr - n) / a.layout.align) := by omega
      rw [hrw]
      exact Nat.mul_mod_right _ _
    refine ⟨⟨⟨k, hk64, halign⟩, hsa, hs0, hend, hge, ?_, hlt⟩,
      rfl, rfl, rfl, rfl, hn, rfl, hge, by omega, hmod0, by omega⟩
    show (a.ptr - n) - (a.ptr - n) % a.layout.align ≤ a.end_
    omega

/-! ### Sequences of allocations -/

/-- Invariants carried along a successful sequence of allocations:
well-formedness, the frame (only `ptr` moves), monotonicity of the cursor,
and the chain shape of the returned ranges. -/
theorem allocSeq_invariant (ns : List Nat) :
    ∀ (a : LeakyBumpAlloc) (rs : List (Nat × Nat)) (b : LeakyBumpAlloc),
      WF a → a.allocSeq ns = some (rs, b) →
      WF b ∧ b.layout = a.layout ∧ b.start = a.start ∧ b.end_ = a.end_ ∧
      b.ptr ≤ a.ptr ∧ ChainFrom a.ptr ns rs b.ptr := by
  induction ns with
  | nil =>
    intro a rs b hwf h
    simp only [LeakyBumpAlloc.allocSeq, Option.some.injEq, Prod.mk.injEq] at h
    obtain ⟨hrs, hb⟩ := h
    subst hrs
    subst hb
    exact ⟨hwf, rfl, rfl, rfl, Nat.le_refl _, rfl⟩
  | cons n ns ih =>
    intro a rs b hwf h
    rw [LeakyBumpAlloc.allocSeq] at h
    split at h
    case _ addr a1 hall =>
      split at h
      case _ rs1 b1 hseq =>
        simp only [Option.some.injEq, Prod.mk.injEq] at h
        obtain ⟨hrs, hb⟩ := h
        subst hrs
        subst hb
        obtain ⟨hwf1, hlay, hst, hen, hp1, hn, haddr, hsge, hle, hmod, hpad⟩ :=
          allocate_ok_step a n addr a1 hwf hall
        obtain ⟨hwfb, hlayb, hstb, henb, hpb, hchain⟩ := ih a1 rs1 b1 hwf1 hseq
        refine ⟨hwfb, hlayb.trans hlay, hstb.trans hst, henb.trans hen,
          by omega, ?_⟩
        exact ⟨rfl, by omega, by rw [← hp1]; exact hchain⟩
      case _ => exact absurd h (by simp)
    case _ => exact absurd h (by simp)

/-- The final cursor of a chain is at or below its starting cursor. -/
theorem chain_bot_le_top :
    ∀ (ns : List Nat) (top : Nat) (rs : List (Nat × Nat)) (bot : Nat),
      ChainFrom top ns rs bot → bot ≤ top := by
  intro ns
  induction ns with
  | nil =>
    intro top rs bot h
    cases rs with
    | nil => exact Nat.le_of_eq h
    | cons r rs => exact h.elim
  | cons n ns ih =>
    intro top rs bot h
    cases rs with
    | nil => exact h.elim
    | cons r rs =>
      obtain ⟨h1, h2, h3⟩ := h
      have := ih r.1 rs bot h3
      omega

/-- Every range of a chain lies between the final cursor and the starting
cursor. -/
theorem chain_range_bounds :
    ∀ (ns : List Nat) (top : Nat) (rs : List (Nat × Nat)) (bot : Nat),
      ChainFrom top ns rs bot →
      ∀ r ∈ rs, bot ≤ r.1 ∧ r.1 ≤ r.2 ∧ r.2 ≤ top := by
  intro ns
  induction ns with
  | nil =>
    intro top rs bot h
    cases rs with
    | nil => intro r hr; exact absurd hr (List.not_mem_nil r)
    | cons r rs => exact h.elim
  | cons n ns ih =>
    intro top rs bot h
    cases rs with
    | nil => intro r hr; exact absurd hr (List.not_mem_nil r)
    | cons r0 rs =>
      obtain ⟨h1, h2, h3⟩ := h
      have hbot := chain_bot_le_top ns r0.1 rs bot h3
      intro r hr
      rcases List.mem_cons.mp hr with hr0 | hrs
      · subst hr0
        omega
      · have := ih r0.1 rs bot h3 r hrs
        omega

/-- The ranges of a chain are pairwise disjoint: every later range lies
entirely below every earlier one. -/
theorem chain_pairwise :
    ∀ (ns : List Nat) (top : Nat) (rs : List (Nat × Nat)) (bot : Nat),
      ChainFrom top ns rs bot →
      rs.Pairwise (fun r s => s.2 ≤ r.1) := by
  intro ns
  induction ns with
  | nil =>
    intro top rs bot h
    cases rs with
    | nil => exact List.Pairwise.nil
    | cons r rs => exact h.elim
  | cons n ns ih =>
    intro top rs bot h
    cases rs with
    | nil => exact List.Pairwise.nil
    | cons r0 rs =>
      obtain ⟨h1, h2, h3⟩ := h
      refine List.Pairwise.cons ?_ (ih r0.1 rs bot h3)
      intro s hs
      have := chain_range_bounds ns r0.1 rs bot h3 s hs
      omega

/-- The consumed bytes of a chain telescope: their sum is the total cursor
travel `top - bot`. -/
theorem chain_sum :
    ∀ (ns : List Nat) (top : Nat) (rs : List (Nat × Nat)) (bot : Nat),
      ChainFrom top ns rs bot →
      (rs.map (fun r => r.2 - r.1)).sum = top - bot := by
  intro ns
  induction ns with
  | nil =>
    intro top rs bot h
    cases rs with
    | nil =>
      have : bot = top := h
      simp [this]
    | cons r rs => exact h.elim
  | cons n ns ih =>
    intro top rs bot h
    cases rs with
    | nil => exact h.elim
    | cons r0 rs =>
      obtain ⟨h1, h2, h3⟩ := h
      have hsum := ih r0.1 rs bot h3
      have hbot := chain_bot_le_top ns r0.1 rs bot h3
      simp only [List.map_cons, List.sum_cons, hsum]
      omega

/-! ### Characterising `new` -/

/-- The shape of a successfully constructed allocator: `start` is the
system-provided (non-null) address, the stored layout is exactly the
requested one, and the cursor starts at `end = start + capacity`. -/
theorem new_ok_shape (C A s : Nat) (a : LeakyBumpAlloc)
    (h : LeakyBumpAlloc.new C A s = .ok a) :
    a.layout = ⟨C, A⟩ ∧ a.start = s ∧ s ≠ 0 ∧ a.end_ = s + C ∧
    a.ptr = a.end_ ∧ isPowerOfTwo A = true ∧ C ≤ ISIZE_MAX - (A - 1) := by
  unfold LeakyBumpAlloc.new at h
  split at h
  · simp at h
  case _ layout hfs =>
    split at h
    · simp at h
    case _ hs =>
      simp only [NewResult.ok.injEq] at h
      subst h
      unfold Layout.fromSizeAlign at hfs
      split at hfs
      case _ hcond =>
        simp only [Option.some.injEq] at hfs
        subst hfs
        exact ⟨rfl, rfl, hs, rfl, rfl, hcond.1, hcond.2⟩
      case _ => simp at hfs

/-- `new` panics at `Layout` validation exactly when the layout check
fails. -/
theorem new_eq_layoutPanic_iff (C A s : Nat) :
    LeakyBumpAlloc.new C A s = .layoutPanic ↔
    ¬(isPowerOfTwo A = true ∧ C ≤ ISIZE_MAX - (A - 1)) := by
  unfold LeakyBumpAlloc.new Layout.fromSizeAlign
  by_cases hcond : isPowerOfTwo A = true ∧ C ≤ ISIZE_MAX - (A - 1)
  · rw [if_pos hcond]
    simp only [hcond, not_true_eq_false, iff_false]
    split <;> simp
  · rw [if_neg hcond]
    simp [hcond]

/-- `new` diverges through `handle_alloc_error` exactly when the layout is
valid but the system returns a null block. -/
theorem new_eq_allocFailure_iff (C A s : Nat) :
    LeakyBumpAlloc.new C A s = .allocFailure ↔
    (isPowerOfTwo A = true ∧ C ≤ ISIZE_MAX - (A - 1)) ∧ s = 0 := by
  unfold LeakyBumpAlloc.new Layout.fromSizeAlign
  by_cases hcond : isPowerOfTwo A = true ∧ C ≤ ISIZE_MAX - (A - 1)
  · rw [if_pos hcond]
    simp only [hcond, true_and]
    split <;> simp [*]
  · rw [if_neg hcond]
    simp [hcond]

/-- `new` establishes well-formedness, given the system allocator's
guarantees on the returned block (aligned, inside the address space). -/
theorem new_wf (C A s : Nat) (a : LeakyBumpAlloc) (hA : A < USIZE)
    (h : LeakyBumpAlloc.new C A s = .ok a) (hal : s % A = 0)
    (hfit : s + C < USIZE) : WF a := by
  obtain ⟨hlay, hst, hs0, hend, hptr, hpow, _⟩ := new_ok_shape C A s a h
  obtain ⟨k, hk⟩ := (isPowerOfTwo_iff A).mp hpow
  have hk64 : k < 64 := by
    by_contra hc
    have hle : (2 : Nat) ^ 64 ≤ 2 ^ k := Nat.pow_le_pow_right (by omega) (by omega)
    rw [hk] at hA
    simp only [USIZE] at hA
    omega
  have halign : a.layout.align = 2 ^ k := by
    rw [hlay]
    exact hk
  refine ⟨⟨k, hk64, halign⟩, ?_, ?_, ?_, ?_, ?_, ?_⟩
  · rw [hst, hlay]
    exact hk ▸ hal
  · rw [hst]
    exact hs0
  · rw [hend, hst, hlay]
  · rw [hptr, hend, hst]
    omega
  · exact Nat.le_of_eq hptr
  · rw [hend]
    exact hfit

/-! ### Frame: `allocate` touches only `ptr` -/

/-- `allocate` never changes `layout`, `start` or `end`, whatever its
outcome. -/
theorem allocate_frame (a : LeakyBumpAlloc) (n : Nat) :
    (a.allocate n).2.layout = a.layout ∧ (a.allocate n).2.start = a.start ∧
    (a.allocate n).2.end_ = a.end_ := by
  rcases Nat.lt_or_ge a.ptr n with hlt | hge
  · rw [allocate_sub_overflow a n hlt]
    exact ⟨rfl, rfl, rfl⟩
  · rw [allocate_eq_of_le a n hge]
    split
    · exact ⟨rfl, rfl, rfl⟩
    · exact ⟨rfl, rfl, rfl⟩

/-- A successful sequence of allocations never changes `layout`, `start`
or `end` (no well-formedness needed). -/
theorem allocSeq_frame (ns : List Nat) :
    ∀ (a : LeakyBumpAlloc) (rs : List (Nat × Nat)) (b : LeakyBumpAlloc),
      a.allocSeq ns = some (rs, b) →
      b.layout = a.layout ∧ b.start = a.start ∧ b.end_ = a.end_ := by
  induction ns with
  | nil =>
    intro a rs b h
    simp only [LeakyBumpAlloc.allocSeq, Option.some.injEq, Prod.mk.injEq] at h
    obtain ⟨hrs, hb⟩ := h
    subst hb
    exact ⟨rfl, rfl, rfl⟩
  | cons n ns ih =>
    intro a rs b h
    rw [LeakyBumpAlloc.allocSeq] at h
    split at h
    case _ addr a1 hall =>
      split at h
      case _ rs1 b1 hseq =>
        simp only [Option.some.injEq, Prod.mk.injEq] at h
        obtain ⟨hrs, hb⟩ := h
        subst hb
        have hf := allocate_frame a n
        rw [hall] at hf
        have h1 : a1.layout = a.layout := hf.1
        have h2 : a1.start = a.start := hf.2.1
        have h3 : a1.end_ = a.end_ := hf.2.2
        obtain ⟨g1, g2, g3⟩ := ih a1 rs1 b1 hseq
        exact ⟨g1.trans h1, g2.trans h2, g3.trans h3⟩
      case _ => simp at h
    case _ => simp at h

/-! ### The layout bound as padded capacity -/

/-- For a power-of-two alignment (fitting in `usize`), the source's layout
check `size ≤ isize::MAX - (align - 1)` says exactly that the capacity
rounded *up* to a multiple of the alignment does not exceed
`isize::MAX`. -/
theorem fromSizeAlign_cond_iff (C A : Nat) (hA : A < USIZE)
    (hpow : isPowerOfTwo A = true) :
    C ≤ ISIZE_MAX - (A - 1) ↔ A * ((C + (A - 1)) / A) ≤ ISIZE_MAX := by
  obtain ⟨k, hk⟩ := (isPowerOfTwo_iff A).mp hpow
  subst hk
  have hk63 : k ≤ 63 := by
    by_contra hc
    have hle : (2 : Nat) ^ 64 ≤ 2 ^ k := Nat.pow_le_pow_right (by omega) (by omega)
    simp only [USIZE] at hA
    omega
  have hPle : (2 : Nat) ^ k ≤ 2 ^ 63 := Nat.pow_le_pow_right (by omega) hk63
  have hPpos : (0 : Nat) < 2 ^ k := Nat.two_pow_pos k
  have h63 : (2 : Nat) ^ 63 = 9223372036854775808 := by norm_num
  simp only [ISIZE_MAX]
  constructor
  · intro hc
    have hmul : 2 ^ k * ((C + (2 ^ k - 1)) / 2 ^ k) ≤ C + (2 ^ k - 1) :=
      Nat.mul_div_le _ _
    omega
  · intro hc
    by_contra hcc
    have hCge : 2 ^ 63 ≤ C + (2 ^ k - 1) := by omega
    have hdiv : 2 ^ 63 / 2 ^ k ≤ (C + (2 ^ k - 1)) / 2 ^ k :=
      Nat.div_le_div_right hCge
    have hpd : (2 : Nat) ^ 63 / 2 ^ k = 2 ^ (63 - k) := Nat.pow_div hk63 (by omega)
    have hmul : 2 ^ k * 2 ^ (63 - k) ≤ 2 ^ k * ((C + (2 ^ k - 1)) / 2 ^ k) :=
      Nat.mul_le_mul_left _ (by omega)
    have hid : (2 : Nat) ^ k * 2 ^ (63 - k) = 2 ^ 63 := by
      rw [← pow_add]
      congr 1
      omega
    omega

/-! ### A concrete live allocator used for instantiations -/

/-- A small concrete allocator: a 16-byte block at address 16 with
alignment 8, cursor fresh at `end = 32`. -/
def R0 : LeakyBumpAlloc :=
  { layout := ⟨16, 8⟩, start := 16, end_ := 32, ptr := 32 }

/-- `R0` is a well-formed live allocator. -/
theorem R0_wf : WF R0 :=
  ⟨⟨3, by omega, by decide⟩, by decide, by decide, by decide, by decide,
    by decide, by decide⟩

/-! ### The claims -/

/-- C1: for every live allocator and every `num_bytes` for which
`allocate` succeeds, the call computes the candidate cursor `ptr - n`
(so in particular `n ≤ ptr`), rounds it down to the nearest multiple of
the alignment (the returned address is a multiple of the alignment, at
most the candidate, and within one alignment below it), commits the
rounded value as the new `ptr`, and returns that same value: the returned
address equals the new cursor. -/
theorem C1_allocate_commits_rounded_candidate (a : LeakyBumpAlloc)
    (n addr : Nat) (a1 : LeakyBumpAlloc) (hwf : WF a)
    (h : a.allocate n = (.ok addr, a1)) :
    n ≤ a.ptr ∧
    addr = (a.ptr - n) - (a.ptr - n) % a.layout.align ∧
    addr % a.layout.align = 0 ∧
    addr ≤ a.ptr - n ∧
    a.ptr - n < addr + a.layout.align ∧
    a1.ptr = addr := by
  obtain ⟨hwf1, hlay, hst, hen, hptr, hn, haddr, hsge, hle, hmod, hpad⟩ :=
    allocate_ok_step a n addr a1 hwf h
  exact ⟨hn, haddr, hmod, by omega, hpad, hptr⟩

/-- Instantiation of `C1_allocate_commits_rounded_candidate` at `R0` and
`allocate 5` (candidate 27, rounded down to 24). -/
theorem C1_witness :
    5 ≤ R0.ptr ∧
    24 = (R0.ptr - 5) - (R0.ptr - 5) % R0.layout.align ∧
    24 % R0.layout.align = 0 ∧
    24 ≤ R0.ptr - 5 ∧
    R0.ptr - 5 < 24 + R0.layout.align ∧
    ({ R0 with ptr := 24 } : LeakyBumpAlloc).ptr = 24 :=
  C1_allocate_commits_rounded_candidate R0 5 24 { R0 with ptr := 24 }
    R0_wf (by decide)

/-- C2: on a live allocator, when the candidate `ptr - n` exists and its
rounding to the alignment falls strictly below `start`, `allocate` aborts
through the exhaustion panic whose diagnostic carries the requested total
(`end - new_ptr`) against the available `capacity()`; nothing is returned
(the result is not an `ok`), and the state — in particular the cursor —
is left unchanged by the failed call. -/
theorem C2_allocate_exhaustion_aborts (a : LeakyBumpAlloc) (n : Nat)
    (hwf : WF a) (hn : n ≤ a.ptr)
    (hlt : (a.ptr - n) - (a.ptr - n) % a.layout.align < a.start) :
    a.allocate n =
      (.bumpPanic (a.end_ - ((a.ptr - n) - (a.ptr - n) % a.layout.align))
        a.capacity, a) :=
  (allocate_spec a n hwf hn).1 hlt

/-- Instantiation of `C2_allocate_exhaustion_aborts` at `R0` and
`allocate 20` (candidate 12, rounded down to 8, below `start = 16`). -/
theorem C2_witness :
    R0.allocate 20 =
      (.bumpPanic
        (R0.end_ - ((R0.ptr - 20) - (R0.ptr - 20) % R0.layout.align))
        R0.capacity, R0) :=
  C2_allocate_exhaustion_aborts R0 20 R0_wf (by decide) (by decide)

/-- C3: for any successful sequence of allocations on a fresh live
allocator, the returned ranges `(new_ptr, old_ptr)` form a chain — each
range ends exactly at the previous cursor and holds at least the
requested bytes — no two ranges overlap (every later range lies entirely
below every earlier one), and `allocated()` afterwards equals the sum of
the consumed bytes `old - new` (rounding padding included), which never
exceeds `capacity()`. -/
theorem C3_allocSeq_ranges (a : LeakyBumpAlloc) (ns : List Nat)
    (rs : List (Nat × Nat)) (b : LeakyBumpAlloc) (hwf : WF a)
    (hfresh : a.ptr = a.end_) (h : a.allocSeq ns = some (rs, b)) :
    ChainFrom a.ptr ns rs b.ptr ∧
    rs.Pairwise (fun r s => s.2 ≤ r.1) ∧
    b.allocated = (rs.map (fun r => r.2 - r.1)).sum ∧
    b.allocated ≤ b.capacity := by
  obtain ⟨hwfb, hlayb, hstb, henb, hpb, hchain⟩ :=
    allocSeq_invariant ns a rs b hwf h
  have hsum := chain_sum ns a.ptr rs b.ptr hchain
  have hpair := chain_pairwise ns a.ptr rs b.ptr hchain
  obtain ⟨_, _, _, hendb, hsb, hpeb, _⟩ := hwfb
  refine ⟨hchain, hpair, ?_, ?_⟩
  · rw [hsum]
    simp only [LeakyBumpAlloc.allocated]
    omega
  · simp only [LeakyBumpAlloc.allocated, LeakyBumpAlloc.capacity]
    omega

/-- Instantiation of `C3_allocSeq_ranges` at `R0` with requests `[5, 3]`:
ranges `(24, 32)` and `(16, 24)`, final cursor 16, consumed 8 + 8 = 16
bytes of the 16-byte capacity. -/
theorem C3_witness :
    ChainFrom R0.ptr [5, 3] [(24, 32), (16, 24)]
      ({ R0 with ptr := 16 } : LeakyBumpAlloc).ptr ∧
    ([((24 : Nat), (32 : Nat)), (16, 24)]).Pairwise (fun r s => s.2 ≤ r.1) ∧
    ({ R0 with ptr := 16 } : LeakyBumpAlloc).allocated =
      (([((24 : Nat), (32 : Nat)), (16, 24)]).map (fun r => r.2 - r.1)).sum ∧
    ({ R0 with ptr := 16 } : LeakyBumpAlloc).allocated ≤
      ({ R0 with ptr := 16 } : LeakyBumpAlloc).capacity :=
  C3_allocSeq_ranges R0 [5, 3] [(24, 32), (16, 24)] { R0 with ptr := 16 }
    R0_wf rfl (by decide)

/-- C4: whenever `new(C, A)` returns an allocator, `allocated()` is `0`
and `capacity()` is `C`, the cursor starting at `end = start + C`. -/
theorem C4_new_zero_allocated_full_capacity (C A s : Nat)
    (a : LeakyBumpAlloc) (h : LeakyBumpAlloc.new C A s = .ok a) :
    a.allocated = 0 ∧ a.capacity = C ∧ a.ptr = a.end_ ∧
    a.end_ = a.start + C := by
  obtain ⟨hlay, hst, hs0, hend, hptr, _, _⟩ := new_ok_shape C A s a h
  refine ⟨?_, ?_, hptr, ?_⟩
  · simp only [LeakyBumpAlloc.allocated, hptr]
    omega
  · show a.layout.size = C
    rw [hlay]
  · rw [hend, hst]

/-- Instantiation of `C4_new_zero_allocated_full_capacity` at
`new 64 16` with system address 1024. -/
theorem C4_witness :
    (⟨⟨64, 16⟩, 1024, 1088, 1088⟩ : LeakyBumpAlloc).allocated = 0 ∧
    (⟨⟨64, 16⟩, 1024, 1088, 1088⟩ : LeakyBumpAlloc).capacity = 64 ∧
    (⟨⟨64, 16⟩, 1024, 1088, 1088⟩ : LeakyBumpAlloc).ptr =
      (⟨⟨64, 16⟩, 1024, 1088, 1088⟩ : LeakyBumpAlloc).end_ ∧
    (⟨⟨64, 16⟩, 1024, 1088, 1088⟩ : LeakyBumpAlloc).end_ =
      (⟨⟨64, 16⟩, 1024, 1088, 1088⟩ : LeakyBumpAlloc).start + 64 :=
  C4_new_zero_allocated_full_capacity 64 16 1024
    ⟨⟨64, 16⟩, 1024, 1088, 1088⟩ (by decide)

/-- C5: every address returned by a successful `allocate` on a live
allocator is a multiple of the alignment fixed at construction, and the
new cursor (which equals it) is as well. -/
theorem C5_returned_address_aligned (a : LeakyBumpAlloc) (n addr : Nat)
    (a1 : LeakyBumpAlloc) (hwf : WF a) (h : a.allocate n = (.ok addr, a1)) :
    addr % a.layout.align = 0 ∧ a1.ptr % a1.layout.align = 0 := by
  obtain ⟨_, hlay, _, _, hptr, _, _, _, _, hmod, _⟩ :=
    allocate_ok_step a n addr a1 hwf h
  exact ⟨hmod, by rw [hptr, hlay]; exact hmod⟩

/-- Instantiation of `C5_returned_address_aligned` at `R0`, `allocate 5`
(returned address 24, alignment 8). -/
theorem C5_witness :
    24 % R0.layout.align = 0 ∧
    ({ R0 with ptr := 24 } : LeakyBumpAlloc).ptr %
      ({ R0 with ptr := 24 } : LeakyBumpAlloc).layout.align = 0 :=
  C5_returned_address_aligned R0 5 24 { R0 with ptr := 24 } R0_wf (by decide)

/-- C6: `start ≤ ptr ≤ end` holds immediately after construction and is
preserved by `allocate` whatever its outcome (success or either panic);
the accessors are modelled as pure functions of the state and cannot move
the cursor. -/
theorem C6_cursor_within_bounds :
    (∀ C A s a, LeakyBumpAlloc.new C A s = .ok a →
      a.start ≤ a.ptr ∧ a.ptr ≤ a.end_) ∧
    (∀ (a : LeakyBumpAlloc) (n : Nat) (r : AllocResult)
      (a1 : LeakyBumpAlloc), WF a → a.allocate n = (r, a1) →
      a1.start ≤ a1.ptr ∧ a1.ptr ≤ a1.end_) := by
  constructor
  · intro C A s a h
    obtain ⟨hlay, hst, hs0, hend, hptr, _, _⟩ := new_ok_shape C A s a h
    constructor
    · rw [hptr, hend, hst]
      omega
    · exact Nat.le_of_eq hptr
  · intro a n r a1 hwf h
    rcases Nat.lt_or_ge a.ptr n with hlt | hge
    · rw [allocate_sub_overflow a n hlt] at h
      simp only [Prod.mk.injEq] at h
      obtain ⟨-, hb⟩ := h
      subst hb
      obtain ⟨-, -, -, -, h5, h6, -⟩ := hwf
      exact ⟨h5, h6⟩
    · have hspec := allocate_spec a n hwf hge
      rcases Nat.lt_or_ge ((a.ptr - n) - (a.ptr - n) % a.layout.align)
        a.start with hlt2 | hge2
      · rw [hspec.1 hlt2] at h
        simp only [Prod.mk.injEq] at h
        obtain ⟨-, hb⟩ := h
        subst hb
        obtain ⟨-, -, -, -, h5, h6, -⟩ := hwf
        exact ⟨h5, h6⟩
      · rw [hspec.2 hge2] at h
        simp only [Prod.mk.injEq, AllocResult.ok.injEq] at h
        obtain ⟨-, hb⟩ := h
        subst hb
        constructor
        · exact hge2
        · show (a.ptr - n) - (a.ptr - n) % a.layout.align ≤ a.end_
          obtain ⟨-, -, -, -, -, h6, -⟩ := hwf
          omega

/-- Instantiation of `C6_cursor_within_bounds`: after `new 64 16` at
address 1024, and after `R0.allocate 5`. -/
theorem C6_witness :
    ((⟨⟨64, 16⟩, 1024, 1088, 1088⟩ : LeakyBumpAlloc).start ≤
        (⟨⟨64, 16⟩, 1024, 1088, 1088⟩ : LeakyBumpAlloc).ptr ∧
      (⟨⟨64, 16⟩, 1024, 1088, 1088⟩ : LeakyBumpAlloc).ptr ≤
        (⟨⟨64, 16⟩, 1024, 1088, 1088⟩ : LeakyBumpAlloc).end_) ∧
    (({ R0 with ptr := 24 } : LeakyBumpAlloc).start ≤
        ({ R0 with ptr := 24 } : LeakyBumpAlloc).ptr ∧
      ({ R0 with ptr := 24 } : LeakyBumpAlloc).ptr ≤
        ({ R0 with ptr := 24 } : LeakyBumpAlloc).end_) :=
  ⟨C6_cursor_within_bounds.1 64 16 1024 ⟨⟨64, 16⟩, 1024, 1088, 1088⟩
      (by decide),
   C6_cursor_within_bounds.2 R0 5 (.ok 24) { R0 with ptr := 24 } R0_wf
      (by decide)⟩

/-- C7: `allocated()` always returns `end - ptr` (it is a pure function of
the state, hence side-effect-free), and its value never decreases across a
successful `allocate` call, nor across any successful sequence of them:
the cursor only moves downward. -/
theorem C7_allocated_def_and_monotone :
    (∀ a : LeakyBumpAlloc, a.allocated = a.end_ - a.ptr) ∧
    (∀ (a : LeakyBumpAlloc) (n addr : Nat) (a1 : LeakyBumpAlloc),
      WF a → a.allocate n = (.ok addr, a1) →
      a.allocated ≤ a1.allocated) ∧
    (∀ (a : LeakyBumpAlloc) (ns : List Nat) (rs : List (Nat × Nat))
      (b : LeakyBumpAlloc), WF a → a.allocSeq ns = some (rs, b) →
      a.allocated ≤ b.allocated) := by
  refine ⟨fun a => rfl, ?_, ?_⟩
  · intro a n addr a1 hwf h
    obtain ⟨-, -, -, hen, hptr, hn, -, -, hle, -, -⟩ :=
      allocate_ok_step a n addr a1 hwf h
    simp only [LeakyBumpAlloc.allocated]
    omega
  · intro a ns rs b hwf h
    obtain ⟨-, -, -, henb, hpb, -⟩ := allocSeq_invariant ns a rs b hwf h
    simp only [LeakyBumpAlloc.allocated]
    omega

/-- Instantiation of `C7_allocated_def_and_monotone` at `R0`, a single
`allocate 5`, and the sequence `[5, 3]`. -/
theorem C7_witness :
    R0.allocated = R0.end_ - R0.ptr ∧
    R0.allocated ≤ ({ R0 with ptr := 24 } : LeakyBumpAlloc).allocated ∧
    R0.allocated ≤ ({ R0 with ptr := 16 } : LeakyBumpAlloc).allocated :=
  ⟨C7_allocated_def_and_monotone.1 R0,
   C7_allocated_def_and_monotone.2.1 R0 5 24 { R0 with ptr := 24 } R0_wf
      (by decide),
   C7_allocated_def_and_monotone.2.2 R0 [5, 3] [(24, 32), (16, 24)]
      { R0 with ptr := 16 } R0_wf (by decide)⟩

/-- C8: `allocate` modifies only the `ptr` field — `start`, `end` and the
stored layout (hence `capacity()`) are untouched by a call, whatever its
outcome, and remain unchanged across any successful sequence of calls. -/
theorem C8_allocate_only_moves_ptr :
    (∀ (a : LeakyBumpAlloc) (n : Nat),
      (a.allocate n).2.layout = a.layout ∧
      (a.allocate n).2.start = a.start ∧
      (a.allocate n).2.end_ = a.end_ ∧
      (a.allocate n).2.capacity = a.capacity) ∧
    (∀ (a : LeakyBumpAlloc) (ns : List Nat) (rs : List (Nat × Nat))
      (b : LeakyBumpAlloc), a.allocSeq ns = some (rs, b) →
      b.layout = a.layout ∧ b.start = a.start ∧ b.end_ = a.end_ ∧
      b.capacity = a.capacity) := by
  constructor
  · intro a n
    obtain ⟨h1, h2, h3⟩ := allocate_frame a n
    refine ⟨h1, h2, h3, ?_⟩
    show (a.allocate n).2.layout.size = a.layout.size
    rw [h1]
  · intro a ns rs b h
    obtain ⟨h1, h2, h3⟩ := allocSeq_frame ns a rs b h
    refine ⟨h1, h2, h3, ?_⟩
    show b.layout.size = a.layout.size
    rw [h1]

/-- Instantiation of `C8_allocate_only_moves_ptr` at `R0`: one
`allocate 5` call, and the successful sequence `[5, 3]`. -/
theorem C8_witness :
    ((R0.allocate 5).2.layout = R0.layout ∧
      (R0.allocate 5).2.start = R0.start ∧
      (R0.allocate 5).2.end_ = R0.end_ ∧
      (R0.allocate 5).2.capacity = R0.capacity) ∧
    (({ R0 with ptr := 16 } : LeakyBumpAlloc).layout = R0.layout ∧
      ({ R0 with ptr := 16 } : LeakyBumpAlloc).start = R0.start ∧
      ({ R0 with ptr := 16 } : LeakyBumpAlloc).end_ = R0.end_ ∧
      ({ R0 with ptr := 16 } : LeakyBumpAlloc).capacity = R0.capacity) :=
  ⟨C8_allocate_only_moves_ptr.1 R0 5,
   C8_allocate_only_moves_ptr.2 R0 [5, 3] [(24, 32), (16, 24)]
      { R0 with ptr := 16 } (by decide)⟩

/-- C9 counterexample: on the live allocator `R0` (cursor address 32),
`allocate 33` aborts through the `checked_sub`
`.expect("ptr sub overflowed")` panic — an abort that is neither a
success nor the exhaustion panic with its requested-vs-available
diagnostic, so the exhaustion panic is not the only abort path inside
`allocate`. -/
theorem C9_counterexample :
    WF R0 ∧ (R0.allocate 33).1.isOk = false ∧
    (R0.allocate 33).1.isBumpPanic = false :=
  ⟨R0_wf, by decide, by decide⟩

/-- C9 (amended): besides reservation failure in `new`, `allocate` on a
live allocator has exactly two abort paths: when `num_bytes` exceeds the
cursor's address value the checked subtraction panics (an abort without
the requested-vs-available diagnostic, state unchanged); otherwise the
call either succeeds or aborts through the exhaustion panic carrying the
diagnostic, with the state unchanged. -/
theorem C9_two_abort_paths (a : LeakyBumpAlloc) (n : Nat) (hwf : WF a) :
    (a.ptr < n → a.allocate n = (.subOverflowPanic, a)) ∧
    (n ≤ a.ptr →
      (∃ addr a1, a.allocate n = (.ok addr, a1)) ∨
      (∃ asked, a.allocate n = (.bumpPanic asked a.capacity, a))) := by
  refine ⟨allocate_sub_overflow a n, ?_⟩
  intro hn
  have hspec := allocate_spec a n hwf hn
  rcases Nat.lt_or_ge ((a.ptr - n) - (a.ptr - n) % a.layout.align) a.start
    with hlt | hge
  · exact Or.inr ⟨_, hspec.1 hlt⟩
  · exact Or.inl ⟨_, _, hspec.2 hge⟩

/-- Instantiation of `C9_two_abort_paths` at `R0` and `n = 33`. -/
theorem C9_witness :
    (R0.ptr < 33 → R0.allocate 33 = (.subOverflowPanic, R0)) ∧
    (33 ≤ R0.ptr →
      (∃ addr a1, R0.allocate 33 = (.ok addr, a1)) ∨
      (∃ asked, R0.allocate 33 = (.bumpPanic asked R0.capacity, R0))) :=
  C9_two_abort_paths R0 33 R0_wf

/-- C10: for a `usize` alignment, `new` panics at `Layout` validation
exactly when the alignment is not a power of two or the capacity padded
up to the alignment exceeds `isize::MAX`; with a valid layout it diverges
through the platform allocation-error handler exactly when the system
returns a null block; and whenever it returns an allocator, `start` is
the non-null system address and the region is fully initialised with the
cursor at `end = start + capacity`. -/
theorem C10_new_failure_modes (C A s : Nat) (hA : A < USIZE) :
    (LeakyBumpAlloc.new C A s = .layoutPanic ↔
      ¬((∃ k, A = 2 ^ k) ∧ A * ((C + (A - 1)) / A) ≤ ISIZE_MAX)) ∧
    (LeakyBumpAlloc.new C A s = .allocFailure ↔
      ((∃ k, A = 2 ^ k) ∧ A * ((C + (A - 1)) / A) ≤ ISIZE_MAX) ∧ s = 0) ∧
    (∀ a, LeakyBumpAlloc.new C A s = .ok a →
      a.start = s ∧ s ≠ 0 ∧ a.end_ = s + C ∧ a.ptr = a.end_) := by
  have hcond : (isPowerOfTwo A = true ∧ C ≤ ISIZE_MAX - (A - 1)) ↔
      ((∃ k, A = 2 ^ k) ∧ A * ((C + (A - 1)) / A) ≤ ISIZE_MAX) := by
    constructor
    · rintro ⟨hp, hc⟩
      exact ⟨(isPowerOfTwo_iff A).mp hp,
        (fromSizeAlign_cond_iff C A hA hp).mp hc⟩
    · rintro ⟨hp2, hc⟩
      have hp := (isPowerOfTwo_iff A).mpr hp2
      exact ⟨hp, (fromSizeAlign_cond_iff C A hA hp).mpr hc⟩
  refine ⟨?_, ?_, ?_⟩
  · rw [new_eq_layoutPanic_iff, hcond]
  · rw [new_eq_allocFailure_iff, hcond]
  · intro a h
    obtain ⟨-, hst, hs0, hend, hptr, -, -⟩ := new_ok_shape C A s a h
    exact ⟨hst, hs0, hend, hptr⟩

/-- Instantiation of `C10_new_failure_modes` (ok branch) at `new 64 16`
with system address 1024. -/
theorem C10_witness :
    (⟨⟨64, 16⟩, 1024, 1088, 1088⟩ : LeakyBumpAlloc).start = 1024 ∧
    (1024 : Nat) ≠ 0 ∧
    (⟨⟨64, 16⟩, 1024, 1088, 1088⟩ : LeakyBumpAlloc).end_ = 1024 + 64 ∧
    (⟨⟨64, 16⟩, 1024, 1088, 1088⟩ : LeakyBumpAlloc).ptr =
      (⟨⟨64, 16⟩, 1024, 1088, 1088⟩ : LeakyBumpAlloc).end_ :=
  (C10_new_failure_modes 64 16 1024 (by decide)).2.2
    ⟨⟨64, 16⟩, 1024, 1088, 1088⟩ (by decide)
